import Mathlib

/-!
Shallow embedding of `m5::container::CircularBuffer<T>` from
`src/M5Utility/src/m5_utility/container/circular_buffer.hpp`.

The C++ class holds a `std::vector<T> _buf` of `_cap` slots together with
`size_t _head, _tail` and a `bool _full` flag.  We model the vector as a
`List T` (default-initialised to `capacity` copies of `default`, as
`_buf.resize(n)` produces value-initialised slots), and `size_t` indices as
`Nat`.  All index arithmetic in the source is of the form
`(x + 1) % _cap` or `(x - 1 + _cap) % _cap` on indices `x < _cap`; for such
`x` the unsigned-wraparound expression `(x - 1 + _cap) % _cap` computes
exactly `(x + _cap - 1) % _cap`, which is how it is written below.
`return_type` (`std::optional<value_type>`) is modelled by `Option T`.
-/

namespace M5Container

structure CircularBuffer (T : Type) where
  _buf : List T
  _cap : Nat
  _head : Nat
  _tail : Nat
  _full : Bool
deriving Repr, DecidableEq

namespace CircularBuffer

variable {T : Type} [Inhabited T]

/-- `explicit CircularBuffer(const size_t n)`: `_cap = n; _buf.resize(n)`;
the remaining members are default (zero / false) initialised.  The C++
constructor `assert`s `n != 0`. -/
def create (T : Type) [Inhabited T] (n : Nat) : CircularBuffer T :=
  { _buf := List.replicate n default, _cap := n, _head := 0, _tail := 0, _full := false }

/-- `bool full() const { return _full; }` -/
def full (cb : CircularBuffer T) : Bool :=
  cb._full

/-- `bool empty() const { return !full() && (_head == _tail); }` -/
def empty (cb : CircularBuffer T) : Bool :=
  !cb.full && (cb._head == cb._tail)

/-- `size_type size() const`:
`full() ? _cap : (_head >= _tail ? _head - _tail : _cap + _head - _tail)` -/
def size (cb : CircularBuffer T) : Nat :=
  if cb.full then cb._cap else if cb._head ≥ cb._tail then cb._head - cb._tail else cb._cap + cb._head - cb._tail

/-- `size_type capacity() const { return _cap; }` -/
def capacity (cb : CircularBuffer T) : Nat :=
  cb._cap

/-- `return_type front() const`: `!empty() ? make_optional(_buf[_tail]) : nullopt` -/
def front (cb : CircularBuffer T) : Option T :=
  if !cb.empty then some (cb._buf.getD cb._tail default) else none

/-- `return_type back() const`:
`!empty() ? make_optional(_buf[(_head - 1 + _cap) % _cap]) : nullopt` -/
def back (cb : CircularBuffer T) : Option T :=
  if !cb.empty then some (cb._buf.getD ((cb._head + cb._cap - 1) % cb._cap) default) else none

/-- `return_type at(size_type i) const`:
`(!empty() && i < size()) ? make_optional(_buf[(_tail + i) % _cap]) : nullopt`
(`at` is a reserved word in Lean, hence the trailing tick). -/
def at' (cb : CircularBuffer T) (i : Nat) : Option T :=
  if !cb.empty && i < cb.size then some (cb._buf.getD ((cb._tail + i) % cb._cap) default) else none

/-- `const_reference operator[](size_type i) const&`: `_buf[(_tail + i) % _cap]`
(unchecked access; in-contract calls have `i < size()`). -/
def idx (cb : CircularBuffer T) (i : Nat) : T :=
  cb._buf.getD ((cb._tail + i) % cb._cap) default

/-- `void clear()`: `_full = false; _head = _tail = 0U;` -/
def clear (cb : CircularBuffer T) : CircularBuffer T :=
  { cb with _full := false, _head := 0, _tail := 0 }

/-- `void push_front(const value_type& v)`:
`_tail = (_tail - 1 + _cap) % _cap; _buf[_tail] = v;
 if (_full) { _head = (_head - 1 + _cap) % _cap; } _full = (_head == _tail);` -/
def push_front (cb : CircularBuffer T) (v : T) : CircularBuffer T :=
  let tail := (cb._tail + cb._cap - 1) % cb._cap
  let buf := cb._buf.set tail v
  let head := if cb._full then (cb._head + cb._cap - 1) % cb._cap else cb._head
  { _buf := buf, _cap := cb._cap, _head := head, _tail := tail, _full := head == tail }

/-- `void push_back(const value_type& v)`:
`_buf[_head] = v; _head = (_head + 1) % _cap;
 if (_full) { _tail = (_tail + 1) % _cap; } _full = (_head == _tail);` -/
def push_back (cb : CircularBuffer T) (v : T) : CircularBuffer T :=
  let buf := cb._buf.set cb._head v
  let head := (cb._head + 1) % cb._cap
  let tail := if cb._full then (cb._tail + 1) % cb._cap else cb._tail
  { _buf := buf, _cap := cb._cap, _head := head, _tail := tail, _full := head == tail }

/-- `void pop_front()`: `if (!empty()) { _tail = (_tail + 1) % _cap; _full = false; }` -/
def pop_front (cb : CircularBuffer T) : CircularBuffer T :=
  if !cb.empty then { cb with _tail := (cb._tail + 1) % cb._cap, _full := false } else cb

/-- `void pop_back()`: `if (!empty()) { _head = (_head - 1 + _cap) % _cap; _full = false; }` -/
def pop_back (cb : CircularBuffer T) : CircularBuffer T :=
  if !cb.empty then { cb with _head := (cb._head + cb._cap - 1) % cb._cap, _full := false } else cb

/-- `void assign(InputIterator first, InputIterator last)`:
`clear(); size_type sz = last - first; if (sz > _cap) first += (sz - _cap);
 auto n = std::min(_cap, sz); while (n--) push_back(*first++);`
The iterator range `[first, last)` is modelled as the list `src`. -/
def assign (cb : CircularBuffer T) (src : List T) : CircularBuffer T :=
  let cb := cb.clear
  let sz := src.length
  let src := if sz > cb._cap then src.drop (sz - cb._cap) else src
  let n := min cb._cap sz
  (src.take n).foldl (fun b v => b.push_back v) cb

/-- `void assign(size_type n, const_reference v)`:
`clear(); n = std::min(_cap, n); while (n--) push_back(v);` -/
def assignFill (cb : CircularBuffer T) (n : Nat) (v : T) : CircularBuffer T :=
  let cb := cb.clear
  let n := min cb._cap n
  (List.replicate n v).foldl (fun b w => b.push_back w) cb

/-- `CircularBuffer(const size_type n, InputIter first, InputIter last)`:
delegates to `CircularBuffer(n)` then `assign(first, last)`. -/
def createFrom (n : Nat) (src : List T) : CircularBuffer T :=
  (create T n).assign src

/-- `void fill(const value_type& v)`:
`clear(); std::fill(_buf.begin(), _buf.end(), v); _full = true;` -/
def fill (cb : CircularBuffer T) (v : T) : CircularBuffer T :=
  let cb := cb.clear
  { cb with _buf := List.replicate cb._buf.length v, _full := true }

/-- `size_t read(value_type* outbuf, const size_t num)`.  The method writes
into the caller's buffer and returns a count; it assigns only the local
variables `sz`, `tail`, `src`, `elms`, `ret` and never a data member, which
the explicit state passing makes visible: the returned receiver state is the
input state.  Result: `((data written to outbuf, returned count), receiver)`. -/
def read (cb : CircularBuffer T) (num : Nat) : (List T × Nat) × CircularBuffer T :=
  let sz := min num cb.size
  if sz = 0 then (([], sz), cb)
  else
    let tail := cb._tail
    let elms := min (cb._cap - tail) sz
    let out1 := (cb._buf.drop tail).take elms
    let tail2 := (tail + elms) % cb._cap
    let ret := elms
    if elms < sz then
      let out2 := (cb._buf.drop tail2).take (sz - elms)
      ((out1 ++ out2, ret + (sz - elms)), cb)
    else ((out1, ret), cb)

/-- Logical front-to-back contents: element at logical index `i` lives at
physical slot `(_tail + i) % _cap` (the formula of `operator[]` / `at`). -/
def toList (cb : CircularBuffer T) : List T :=
  (List.range cb.size).map fun i => cb._buf.getD ((cb._tail + i) % cb._cap) default

/-- `iterator begin()`: logical position `_tail`. -/
def beginPos (cb : CircularBuffer T) : Nat :=
  cb._tail

/-- `iterator end()`: logical position `_tail + size()`. -/
def endPos (cb : CircularBuffer T) : Nat :=
  cb._tail + cb.size

/-- Forward iteration from `begin()` to `end()`: the iterator dereferences
`_buf[_pos % capacity()]` at positions `_tail, _tail + 1, …, _tail + size() - 1`. -/
def forwardIter (cb : CircularBuffer T) : List T :=
  (List.range cb.size).map fun k => cb._buf.getD ((cb.beginPos + k) % cb._cap) default

/-- Reverse iteration from `rbegin()` to `rend()`: `std::reverse_iterator`
dereferences `*(cur - 1)`, so the `k`-th element read is
`_buf[(_tail + size() - 1 - k) % capacity()]`. -/
def revIter (cb : CircularBuffer T) : List T :=
  (List.range cb.size).map fun k => cb._buf.getD ((cb.endPos - 1 - k) % cb._cap) default

/-- Structural invariant of every buffer the constructor and the public
mutators can produce: positive capacity, in-range indices, backing storage
of exactly `_cap` slots, and `_full` only set when `_head == _tail`. -/
def Invariant (cb : CircularBuffer T) : Prop :=
  0 < cb._cap ∧ cb._head < cb._cap ∧ cb._tail < cb._cap ∧
    cb._buf.length = cb._cap ∧ (cb._full = true → cb._head = cb._tail)

instance (cb : CircularBuffer T) : Decidable cb.Invariant := by
  unfold Invariant
  infer_instance

/-- States reachable from `CircularBuffer(n)` (with `n != 0`, per the
constructor's assert) through the public mutators. -/
inductive Reachable : CircularBuffer T → Prop
  | create (n : Nat) (h : n ≠ 0) : Reachable (create T n)
  | push_front (cb : CircularBuffer T) (v : T) : Reachable cb → Reachable (cb.push_front v)
  | push_back (cb : CircularBuffer T) (v : T) : Reachable cb → Reachable (cb.push_back v)
  | pop_front (cb : CircularBuffer T) : Reachable cb → Reachable cb.pop_front
  | pop_back (cb : CircularBuffer T) : Reachable cb → Reachable cb.pop_back
  | clear (cb : CircularBuffer T) : Reachable cb → Reachable cb.clear
  | assign (cb : CircularBuffer T) (src : List T) : Reachable cb → Reachable (cb.assign src)
  | assignFill (cb : CircularBuffer T) (n : Nat) (v : T) : Reachable cb → Reachable (cb.assignFill n v)
  | fill (cb : CircularBuffer T) (v : T) : Reachable cb → Reachable (cb.fill v)

/-! ### General list and modular-arithmetic helpers -/

theorem getD_set_self {α : Type} (l : List α) (i : Nat) (v d : α) (h : i < l.length) :
    (l.set i v).getD i d = v := by
  simp [List.getD_eq_getElem?_getD, List.getElem?_set, h]

theorem getD_set_ne {α : Type} (l : List α) {i j : Nat} (v d : α) (h : i ≠ j) :
    (l.set i v).getD j d = l.getD j d := by
  simp [List.getD_eq_getElem?_getD, List.getElem?_set, h]

theorem add_mod_inj {c x a b : Nat} (ha : a < c) (hb : b < c)
    (h : (x + a) % c = (x + b) % c) : a = b := by
  have h2 : a ≡ b [MOD c] := Nat.ModEq.add_left_cancel' x h
  have h3 : a % c = b % c := h2
  rwa [Nat.mod_eq_of_lt ha, Nat.mod_eq_of_lt hb] at h3

theorem drop_take_eq_map_range {α : Type} (l : List α) (a b : Nat) (d : α)
    (h : a + b ≤ l.length) :
    (l.drop a).take b = (List.range b).map fun i => l.getD (a + i) d := by
  apply List.ext_getElem
  · simp; omega
  · intro n h₁ h₂
    have hn : n < b := by simp at h₂; exact h₂
    have hlen : a + n < l.length := by omega
    rw [List.getElem_take, List.getElem_drop]
    simp only [List.getElem_map, List.getElem_range]
    rw [List.getD_eq_getElem?_getD, List.getElem?_eq_getElem hlen]
    rfl

/-! ### Size, emptiness and fullness facts -/

theorem size_of_full (cb : CircularBuffer T) (h : cb._full = true) : cb.size = cb._cap := by
  simp [size, full, h]

theorem size_le_cap (cb : CircularBuffer T) (hv : cb.Invariant) : cb.size ≤ cb._cap := by
  obtain ⟨h1, h2, h3, h4, h5⟩ := hv
  simp only [size, full]
  split
  · exact Nat.le_refl _
  · split <;> omega

theorem size_lt_of_not_full (cb : CircularBuffer T) (hv : cb.Invariant)
    (h : cb._full = false) : cb.size < cb._cap := by
  obtain ⟨h1, h2, h3, h4, h5⟩ := hv
  simp only [size, full, h, Bool.false_eq_true, if_false]
  split <;> omega

theorem not_full_of_size_lt (cb : CircularBuffer T) (h : cb.size < cb._cap) :
    cb._full = false := by
  rcases hf : cb._full with _ | _
  · rfl
  · rw [cb.size_of_full hf] at h; omega

theorem size_zero_of_empty (cb : CircularBuffer T) (h : cb.empty = true) : cb.size = 0 := by
  simp only [empty, full, Bool.and_eq_true, Bool.not_eq_true', beq_iff_eq] at h
  simp [size, full, h.1, h.2]

theorem empty_iff_size_zero (cb : CircularBuffer T) (hv : cb.Invariant) :
    cb.empty = true ↔ cb.size = 0 := by
  obtain ⟨h1, h2, h3, h4, h5⟩ := hv
  simp only [empty, size, full, Bool.and_eq_true, Bool.not_eq_true', beq_iff_eq]
  constructor
  · rintro ⟨hf, he⟩; simp [hf, he]
  · intro hs
    rcases hf : cb._full with _ | _
    · refine ⟨rfl, ?_⟩
      simp only [hf, Bool.false_eq_true, if_false] at hs
      split at hs <;> omega
    · simp only [hf, if_true] at hs; omega

theorem full_iff_size_cap (cb : CircularBuffer T) (hv : cb.Invariant) :
    cb.full = true ↔ cb.size = cb._cap := by
  constructor
  · exact cb.size_of_full
  · intro hs
    rcases hf : cb.full with _ | _
    · have := cb.size_lt_of_not_full hv hf
      omega
    · rfl

theorem head_eq_tail_add_size (cb : CircularBuffer T) (hv : cb.Invariant) :
    cb._head = (cb._tail + cb.size) % cb._cap := by
  obtain ⟨h1, h2, h3, h4, h5⟩ := hv
  rcases hf : cb._full with _ | _
  · simp only [size, full, hf, Bool.false_eq_true, if_false]
    split
    · have hx : cb._tail + (cb._head - cb._tail) = cb._head := by omega
      rw [hx, Nat.mod_eq_of_lt h2]
    · have hx : cb._tail + (cb._cap + cb._head - cb._tail) = cb._head + cb._cap := by omega
      rw [hx, Nat.add_mod_right, Nat.mod_eq_of_lt h2]
  · simp only [size, full, hf, if_true]
    rw [h5 hf, Nat.add_mod_right]
    exact (Nat.mod_eq_of_lt h3).symm

/-! ### Invariant preservation -/

theorem invariant_create (n : Nat) (h : 0 < n) : (create T n).Invariant := by
  refine ⟨h, h, h, ?_, fun hf => rfl⟩
  simp [create]

theorem invariant_push_back (cb : CircularBuffer T) (hv : cb.Invariant) (v : T) :
    (cb.push_back v).Invariant := by
  obtain ⟨h1, h2, h3, h4, h5⟩ := hv
  refine ⟨h1, ?_, ?_, ?_, ?_⟩
  · simpa [push_back] using Nat.mod_lt _ h1
  · simp only [push_back]
    split
    · exact Nat.mod_lt _ h1
    · exact h3
  · simp [push_back, h4]
  · simp only [push_back, beq_iff_eq]
    exact fun hf => hf

theorem invariant_push_front (cb : CircularBuffer T) (hv : cb.Invariant) (v : T) :
    (cb.push_front v).Invariant := by
  obtain ⟨h1, h2, h3, h4, h5⟩ := hv
  refine ⟨h1, ?_, ?_, ?_, ?_⟩
  · simp only [push_front]
    split
    · exact Nat.mod_lt _ h1
    · exact h2
  · simpa [push_front] using Nat.mod_lt _ h1
  · simp [push_front, h4]
  · simp only [push_front, beq_iff_eq]
    exact fun hf => hf

theorem invariant_pop_front (cb : CircularBuffer T) (hv : cb.Invariant) :
    cb.pop_front.Invariant := by
  obtain ⟨h1, h2, h3, h4, h5⟩ := hv
  simp only [pop_front]
  split
  · exact ⟨h1, h2, Nat.mod_lt _ h1, h4, by simp⟩
  · exact ⟨h1, h2, h3, h4, h5⟩

theorem invariant_pop_back (cb : CircularBuffer T) (hv : cb.Invariant) :
    cb.pop_back.Invariant := by
  obtain ⟨h1, h2, h3, h4, h5⟩ := hv
  simp only [pop_back]
  split
  · exact ⟨h1, Nat.mod_lt _ h1, h3, h4, by simp⟩
  · exact ⟨h1, h2, h3, h4, h5⟩

theorem invariant_clear (cb : CircularBuffer T) (hv : cb.Invariant) : cb.clear.Invariant := by
  obtain ⟨h1, h2, h3, h4, h5⟩ := hv
  exact ⟨h1, h1, h1, h4, by simp [clear]⟩

theorem invariant_fill (cb : CircularBuffer T) (hv : cb.Invariant) (v : T) :
    (cb.fill v).Invariant := by
  obtain ⟨h1, h2, h3, h4, h5⟩ := hv
  exact ⟨h1, h1, h1, by simp [fill, clear, h4], by simp [fill, clear]⟩

theorem invariant_foldl_push_back (l : List T) :
    ∀ cb : CircularBuffer T, cb.Invariant →
      (l.foldl (fun b v => b.push_back v) cb).Invariant := by
  induction l with
  | nil => exact fun cb hv => hv
  | cons v l ih =>
      intro cb hv
      exact ih _ (cb.invariant_push_back hv v)

theorem invariant_assign (cb : CircularBuffer T) (hv : cb.Invariant) (src : List T) :
    (cb.assign src).Invariant := by
  simp only [assign]
  exact invariant_foldl_push_back _ _ (cb.invariant_clear hv)

theorem invariant_assignFill (cb : CircularBuffer T) (hv : cb.Invariant) (n : Nat) (v : T) :
    (cb.assignFill n v).Invariant := by
  simp only [assignFill]
  exact invariant_foldl_push_back _ _ (cb.invariant_clear hv)

theorem reachable_invariant (cb : CircularBuffer T) (h : Reachable cb) : cb.Invariant := by
  induction h with
  | create n hn => exact invariant_create n (Nat.pos_of_ne_zero hn)
  | push_front cb v _ ih => exact cb.invariant_push_front ih v
  | push_back cb v _ ih => exact cb.invariant_push_back ih v
  | pop_front cb _ ih => exact cb.invariant_pop_front ih
  | pop_back cb _ ih => exact cb.invariant_pop_back ih
  | clear cb _ ih => exact cb.invariant_clear ih
  | assign cb src _ ih => exact cb.invariant_assign ih src
  | assignFill cb n v _ ih => exact cb.invariant_assignFill ih n v
  | fill cb v _ ih => exact cb.invariant_fill ih v

/-! ### How a push transforms the logical contents -/

theorem push_back_size_of_not_full (cb : CircularBuffer T) (hv : cb.Invariant)
    (hf : cb._full = false) (v : T) : (cb.push_back v).size = cb.size + 1 := by
  obtain ⟨h1, h2, h3, h4, h5⟩ := hv
  have hmod : (cb._head + 1) % cb._cap = if cb._head + 1 = cb._cap then 0 else cb._head + 1 := by
    split
    · simp_all
    · exact Nat.mod_eq_of_lt (by omega)
  simp only [push_back, size, full, hf, Bool.false_eq_true, if_false, beq_iff_eq, hmod]
  split_ifs <;> omega

theorem push_back_toList_of_not_full (cb : CircularBuffer T) (hv : cb.Invariant)
    (hf : cb._full = false) (v : T) : (cb.push_back v).toList = cb.toList ++ [v] := by
  obtain ⟨h1, h2, h3, h4, h5⟩ := hv
  have hsz : (cb.push_back v).size = cb.size + 1 :=
    cb.push_back_size_of_not_full ⟨h1, h2, h3, h4, h5⟩ hf v
  have hslt : cb.size < cb._cap := cb.size_lt_of_not_full ⟨h1, h2, h3, h4, h5⟩ hf
  have hhead : cb._head = (cb._tail + cb.size) % cb._cap :=
    cb.head_eq_tail_add_size ⟨h1, h2, h3, h4, h5⟩
  have htail : (cb.push_back v)._tail = cb._tail := by simp [push_back, hf]
  have hbuf : (cb.push_back v)._buf = cb._buf.set cb._head v := by simp [push_back]
  have hcap : (cb.push_back v)._cap = cb._cap := rfl
  unfold toList
  rw [hsz, htail, hbuf, hcap, List.range_succ, List.map_append]
  congr 1
  · apply List.map_congr_left
    intro i hi
    rw [List.mem_range] at hi
    have hne : cb._head ≠ (cb._tail + i) % cb._cap := by
      rw [hhead]
      intro hcontra
      have := add_mod_inj hslt (Nat.lt_trans hi hslt) hcontra
      omega
    exact getD_set_ne _ v default hne
  · simp only [List.map_cons, List.map_nil]
    congr 1
    rw [← hhead]
    exact getD_set_self _ _ v default (by rw [h4]; exact h2)

theorem push_back_size_of_full (cb : CircularBuffer T) (hv : cb.Invariant)
    (hf : cb._full = true) (v : T) : (cb.push_back v).size = cb._cap := by
  obtain ⟨h1, h2, h3, h4, h5⟩ := hv
  have hht := h5 hf
  simp [push_back, size, full, hf, hht]

theorem push_back_toList_of_full (cb : CircularBuffer T) (hv : cb.Invariant)
    (hf : cb._full = true) (v : T) :
    (cb.push_back v).toList = cb.toList.drop 1 ++ [v] := by
  obtain ⟨h1, h2, h3, h4, h5⟩ := hv
  have hht : cb._head = cb._tail := h5 hf
  have hsz' : (cb.push_back v).size = cb._cap :=
    cb.push_back_size_of_full ⟨h1, h2, h3, h4, h5⟩ hf v
  have hsz : cb.size = cb._cap := cb.size_of_full hf
  obtain ⟨c', hc⟩ : ∃ c', cb._cap = c' + 1 := ⟨cb._cap - 1, by omega⟩
  have htail : (cb.push_back v)._tail = (cb._tail + 1) % cb._cap := by simp [push_back, hf]
  have hbuf : (cb.push_back v)._buf = cb._buf.set cb._head v := by simp [push_back]
  have hcap : (cb.push_back v)._cap = cb._cap := rfl
  unfold toList
  rw [hsz', hsz, htail, hbuf, hcap, hht]
  have hidx : ∀ i : Nat, ((cb._tail + 1) % cb._cap + i) % cb._cap = (cb._tail + 1 + i) % cb._cap :=
    fun i => Nat.mod_add_mod _ _ _
  calc (List.range cb._cap).map
        (fun i => (cb._buf.set cb._tail v).getD (((cb._tail + 1) % cb._cap + i) % cb._cap) default)
      = (List.range cb._cap).map
          (fun i => (cb._buf.set cb._tail v).getD ((cb._tail + 1 + i) % cb._cap) default) := by
        apply List.map_congr_left
        intro i _
        rw [hidx]
    _ = ((List.range cb._cap).map
          (fun i => cb._buf.getD ((cb._tail + i) % cb._cap) default)).drop 1 ++ [v] := by
        have hr1 : List.range cb._cap = List.range c' ++ [c'] := by rw [hc, List.range_succ]
        have hr2 : List.range cb._cap = 0 :: List.map Nat.succ (List.range c') := by
          rw [hc, List.range_succ_eq_map]
        conv_rhs => rw [hr2, List.map_cons, List.drop_one, List.tail_cons, List.map_map]
        conv_lhs => rw [hr1, List.map_append]
        congr 1
        · apply List.map_congr_left
          intro i hi
          rw [List.mem_range] at hi
          have hne : cb._tail ≠ (cb._tail + 1 + i) % cb._cap := by
            intro hcontra
            rw [Nat.add_assoc] at hcontra
            have h0 : (cb._tail + 0) % cb._cap = (cb._tail + (1 + i)) % cb._cap := by
              rw [Nat.add_zero, Nat.mod_eq_of_lt h3]
              exact hcontra
            have h9 := add_mod_inj h1 (by omega) h0
            omega
          simp only [Function.comp]
          rw [getD_set_ne _ v default hne]
          have hadd : cb._tail + 1 + i = cb._tail + Nat.succ i := by omega
          rw [hadd]
        · simp only [List.map_cons, List.map_nil]
          congr 1
          have hci : cb._tail + 1 + c' = cb._tail + cb._cap := by omega
          rw [hci, Nat.add_mod_right, Nat.mod_eq_of_lt h3]
          exact getD_set_self _ _ v default (by rw [h4]; exact h3)

theorem push_front_size_of_full (cb : CircularBuffer T) (hv : cb.Invariant)
    (hf : cb._full = true) (v : T) : (cb.push_front v).size = cb._cap := by
  obtain ⟨h1, h2, h3, h4, h5⟩ := hv
  have hht := h5 hf
  simp [push_front, size, full, hf, hht]

theorem push_front_toList_of_full (cb : CircularBuffer T) (hv : cb.Invariant)
    (hf : cb._full = true) (v : T) :
    (cb.push_front v).toList = v :: cb.toList.dropLast := by
  obtain ⟨h1, h2, h3, h4, h5⟩ := hv
  have hht : cb._head = cb._tail := h5 hf
  have hsz' : (cb.push_front v).size = cb._cap :=
    cb.push_front_size_of_full ⟨h1, h2, h3, h4, h5⟩ hf v
  have hsz : cb.size = cb._cap := cb.size_of_full hf
  obtain ⟨c', hc⟩ : ∃ c', cb._cap = c' + 1 := ⟨cb._cap - 1, by omega⟩
  have htail : (cb.push_front v)._tail = (cb._tail + cb._cap - 1) % cb._cap := by
    simp [push_front]
  have hbuf : (cb.push_front v)._buf = cb._buf.set ((cb._tail + cb._cap - 1) % cb._cap) v := by
    simp [push_front]
  have hcap : (cb.push_front v)._cap = cb._cap := rfl
  have htlt : (cb._tail + cb._cap - 1) % cb._cap < cb._buf.length := by
    rw [h4]; exact Nat.mod_lt _ h1
  unfold toList
  rw [hsz', hsz, htail, hbuf, hcap]
  have hidx : ∀ i : Nat,
      ((cb._tail + cb._cap - 1) % cb._cap + i) % cb._cap = (cb._tail + cb._cap - 1 + i) % cb._cap :=
    fun i => Nat.mod_add_mod _ _ _
  calc (List.range cb._cap).map
        (fun i => (cb._buf.set ((cb._tail + cb._cap - 1) % cb._cap) v).getD
          (((cb._tail + cb._cap - 1) % cb._cap + i) % cb._cap) default)
      = (List.range cb._cap).map
          (fun i => (cb._buf.set ((cb._tail + cb._cap - 1) % cb._cap) v).getD
            ((cb._tail + cb._cap - 1 + i) % cb._cap) default) := by
        apply List.map_congr_left
        intro i _
        rw [hidx]
    _ = v :: ((List.range cb._cap).map
          (fun i => cb._buf.getD ((cb._tail + i) % cb._cap) default)).dropLast := by
        have hr1 : List.range cb._cap = 0 :: List.map Nat.succ (List.range c') := by
          rw [hc, List.range_succ_eq_map]
        have hr2 : List.range cb._cap = List.range c' ++ [c'] := by rw [hc, List.range_succ]
        conv_lhs => rw [hr1, List.map_cons, List.map_map]
        conv_rhs => rw [hr2, List.map_append, List.map_cons, List.map_nil, List.dropLast_concat]
        congr 1
        · rw [Nat.add_zero]
          exact getD_set_self _ _ v default htlt
        · apply List.map_congr_left
          intro i hi
          rw [List.mem_range] at hi
          simp only [Function.comp]
          have hshift : cb._tail + cb._cap - 1 + Nat.succ i = cb._tail + i + cb._cap := by omega
          rw [hshift, Nat.add_mod_right]
          have hne : (cb._tail + cb._cap - 1) % cb._cap ≠ (cb._tail + i) % cb._cap := by
            have hrw : cb._tail + cb._cap - 1 = cb._tail + (cb._cap - 1) := by omega
            rw [hrw]
            intro hcontra
            have h9 := add_mod_inj (by omega) (by omega) hcontra
            omega
          rw [getD_set_ne _ v default hne]

/-! ### Effect of a push on `front`, `back` and `empty` -/

theorem push_back_empty (cb : CircularBuffer T) (v : T) : (cb.push_back v).empty = false := by
  simp only [push_back, empty, full]
  exact Bool.not_and_self _

theorem push_front_empty (cb : CircularBuffer T) (v : T) : (cb.push_front v).empty = false := by
  simp only [push_front, empty, full]
  exact Bool.not_and_self _

theorem push_back_back (cb : CircularBuffer T) (hv : cb.Invariant) (v : T) :
    (cb.push_back v).back = some v := by
  obtain ⟨h1, h2, h3, h4, h5⟩ := hv
  unfold back
  rw [cb.push_back_empty v]
  simp only [Bool.not_false, if_true]
  congr 1
  have hb : (cb.push_back v)._buf = cb._buf.set cb._head v := by simp [push_back]
  have hh : (cb.push_back v)._head = (cb._head + 1) % cb._cap := by simp [push_back]
  have hcap : (cb.push_back v)._cap = cb._cap := rfl
  rw [hb, hh, hcap]
  have h6 : (cb._head + 1) % cb._cap + cb._cap - 1 = (cb._head + 1) % cb._cap + (cb._cap - 1) := by
    omega
  rw [h6, Nat.mod_add_mod]
  have h7 : cb._head + 1 + (cb._cap - 1) = cb._head + cb._cap := by omega
  rw [h7, Nat.add_mod_right, Nat.mod_eq_of_lt h2]
  exact getD_set_self _ _ v default (by rw [h4]; exact h2)

theorem push_front_front (cb : CircularBuffer T) (hv : cb.Invariant) (v : T) :
    (cb.push_front v).front = some v := by
  obtain ⟨h1, h2, h3, h4, h5⟩ := hv
  unfold front
  rw [cb.push_front_empty v]
  simp only [Bool.not_false, if_true]
  congr 1
  have hb : (cb.push_front v)._buf = cb._buf.set ((cb._tail + cb._cap - 1) % cb._cap) v := by
    simp [push_front]
  have ht : (cb.push_front v)._tail = (cb._tail + cb._cap - 1) % cb._cap := by simp [push_front]
  rw [hb, ht]
  exact getD_set_self _ _ v default (by rw [h4]; exact Nat.mod_lt _ h1)

/-! ### Bulk population: `clear`, `assign`, construction from a range -/

theorem clear_size (cb : CircularBuffer T) : cb.clear.size = 0 := by
  simp [clear, size, full]

theorem clear_toList (cb : CircularBuffer T) : cb.clear.toList = [] := by
  simp [toList, clear_size]

theorem foldl_push_back_spec (l : List T) :
    ∀ cb : CircularBuffer T, cb.Invariant → cb.size + l.length ≤ cb._cap →
      (l.foldl (fun b v => b.push_back v) cb).toList = cb.toList ++ l ∧
      (l.foldl (fun b v => b.push_back v) cb).size = cb.size + l.length := by
  induction l with
  | nil => intro cb hv hle; simp
  | cons v l ih =>
      intro cb hv hle
      simp only [List.foldl_cons, List.length_cons] at hle ⊢
      have hlt : cb.size < cb._cap := by omega
      have hf : cb._full = false := cb.not_full_of_size_lt hlt
      have htl := cb.push_back_toList_of_not_full hv hf v
      have hsz := cb.push_back_size_of_not_full hv hf v
      have hv' := cb.invariant_push_back hv v
      have hcap' : (cb.push_back v)._cap = cb._cap := rfl
      obtain ⟨ihl, ihs⟩ := ih (cb.push_back v) hv' (by rw [hsz, hcap']; omega)
      refine ⟨?_, ?_⟩
      · rw [ihl, htl, List.append_assoc, List.singleton_append]
      · rw [ihs, hsz]; omega

theorem assign_spec (cb : CircularBuffer T) (hv : cb.Invariant) (src : List T) :
    (cb.assign src).toList = src.drop (src.length - cb._cap) ∧
    (cb.assign src).size = min cb._cap src.length := by
  have hvc := cb.invariant_clear hv
  have hkey : ((if src.length > cb.clear._cap then src.drop (src.length - cb.clear._cap)
      else src).take (min cb.clear._cap src.length)) = src.drop (src.length - cb._cap) := by
    show ((if src.length > cb._cap then src.drop (src.length - cb._cap)
      else src).take (min cb._cap src.length)) = src.drop (src.length - cb._cap)
    rcases le_or_lt src.length cb._cap with hle | hlt
    · rw [if_neg (by omega), Nat.min_eq_right hle, List.take_length]
      have hz : src.length - cb._cap = 0 := by omega
      rw [hz, List.drop_zero]
    · rw [if_pos (by omega), Nat.min_eq_left (by omega)]
      apply List.take_of_length_le
      rw [List.length_drop]
      omega
  have hassign : cb.assign src =
      (src.drop (src.length - cb._cap)).foldl (fun b v => b.push_back v) cb.clear := by
    simp only [assign]
    rw [hkey]
  have hlen : (src.drop (src.length - cb._cap)).length = min cb._cap src.length := by
    rw [List.length_drop]; omega
  have hfold := foldl_push_back_spec (src.drop (src.length - cb._cap)) cb.clear hvc
      (by rw [cb.clear_size, hlen]; show 0 + min cb._cap src.length ≤ cb._cap; omega)
  refine ⟨?_, ?_⟩
  · rw [hassign, hfold.1, cb.clear_toList, List.nil_append]
  · rw [hassign, hfold.2, cb.clear_size, hlen, Nat.zero_add]

theorem createFrom_spec (n : Nat) (hn : 0 < n) (src : List T) :
    (createFrom n src : CircularBuffer T).toList = src.drop (src.length - n) ∧
    (createFrom n src : CircularBuffer T).size = min n src.length := by
  exact assign_spec (create T n) (invariant_create n hn) src

/-! ### `read`: contiguous copy-out of the logical contents -/

theorem toList_length (cb : CircularBuffer T) : cb.toList.length = cb.size := by
  simp [toList]

theorem toList_take_min (cb : CircularBuffer T) (num : Nat) :
    cb.toList.take num = cb.toList.take (min num cb.size) := by
  rcases Nat.le_total num cb.size with h | h
  · rw [Nat.min_eq_left h]
  · rw [Nat.min_eq_right h,
      List.take_of_length_le (by rw [toList_length]; exact h),
      List.take_of_length_le (by rw [toList_length])]

theorem toList_take_eq_map_range (cb : CircularBuffer T) (sz : Nat) (h : sz ≤ cb.size) :
    cb.toList.take sz =
      (List.range sz).map fun i => cb._buf.getD ((cb._tail + i) % cb._cap) default := by
  rw [toList, ← List.map_take, List.take_range, Nat.min_eq_left h]

theorem read_state (cb : CircularBuffer T) (num : Nat) : (cb.read num).2 = cb := by
  simp only [read]
  split
  · rfl
  · split <;> rfl

theorem read_spec (cb : CircularBuffer T) (hv : cb.Invariant) (num : Nat) :
    (cb.read num).1.1 = cb.toList.take num ∧ (cb.read num).1.2 = min num cb.size := by
  obtain ⟨h1, h2, h3, h4, h5⟩ := hv
  have hsc : cb.size ≤ cb._cap := cb.size_le_cap ⟨h1, h2, h3, h4, h5⟩
  rw [cb.toList_take_min num]
  simp only [read]
  by_cases h0 : min num cb.size = 0
  · rw [if_pos h0]
    refine ⟨?_, rfl⟩
    rw [h0, List.take_zero]
  · rw [if_neg h0]
    have hszle : min num cb.size ≤ cb.size := Nat.min_le_right _ _
    by_cases hwrap : min (cb._cap - cb._tail) (min num cb.size) < min num cb.size
    · rw [if_pos hwrap]
      have helms : min (cb._cap - cb._tail) (min num cb.size) = cb._cap - cb._tail := by omega
      rw [helms] at hwrap ⊢
      have htsz : cb._tail + (cb._cap - cb._tail) = cb._cap := by omega
      have htail2 : (cb._tail + (cb._cap - cb._tail)) % cb._cap = 0 := by
        rw [htsz, Nat.mod_self]
      rw [htail2]
      dsimp only
      constructor
      · rw [cb.toList_take_eq_map_range (min num cb.size) hszle]
        have hsplit : min num cb.size =
            (cb._cap - cb._tail) + (min num cb.size - (cb._cap - cb._tail)) := by omega
        conv_rhs => rw [hsplit]
        rw [List.range_add, List.map_append, List.map_map]
        congr 1
        · rw [drop_take_eq_map_range cb._buf cb._tail (cb._cap - cb._tail) default (by omega)]
          apply List.map_congr_left
          intro i hi
          rw [List.mem_range] at hi
          rw [Nat.mod_eq_of_lt (by omega)]
        · rw [drop_take_eq_map_range cb._buf 0 (min num cb.size - (cb._cap - cb._tail)) default
            (by omega)]
          apply List.map_congr_left
          intro i hi
          rw [List.mem_range] at hi
          simp only [Function.comp]
          have hidx : cb._tail + (cb._cap - cb._tail + i) = cb._cap + i := by omega
          rw [hidx, Nat.add_comm cb._cap i, Nat.add_mod_right, Nat.mod_eq_of_lt (by omega),
            Nat.zero_add]
      · omega
    · rw [if_neg hwrap]
      have helms : min (cb._cap - cb._tail) (min num cb.size) = min num cb.size := by
        have := Nat.min_le_right (cb._cap - cb._tail) (min num cb.size)
        omega
      rw [helms]
      dsimp only
      refine ⟨?_, rfl⟩
      have hfit : min num cb.size ≤ cb._cap - cb._tail := by omega
      rw [cb.toList_take_eq_map_range (min num cb.size) hszle,
        drop_take_eq_map_range cb._buf cb._tail (min num cb.size) default (by omega)]
      apply List.map_congr_left
      intro i hi
      rw [List.mem_range] at hi
      rw [Nat.mod_eq_of_lt (by omega)]

/-! ### Iteration -/

theorem forwardIter_eq_toList (cb : CircularBuffer T) : cb.forwardIter = cb.toList := rfl

theorem forwardIter_length (cb : CircularBuffer T) : cb.forwardIter.length = cb.size := by
  simp [forwardIter]

theorem endPos_sub_beginPos (cb : CircularBuffer T) : cb.endPos - cb.beginPos = cb.size := by
  unfold endPos beginPos
  omega

theorem revIter_eq_reverse (cb : CircularBuffer T) : cb.revIter = cb.toList.reverse := by
  apply List.ext_getElem
  · simp [revIter, toList]
  · intro n h₁ h₂
    have hn : n < cb.size := by simpa [revIter] using h₁
    rw [List.getElem_reverse]
    simp only [revIter, toList, endPos, beginPos, List.getElem_map, List.getElem_range,
      List.length_map, List.length_range]
    have hidx : cb._tail + cb.size - 1 - n = cb._tail + (cb.size - 1 - n) := by omega
    rw [hidx]

/-! ### Accessors and pops on the edge cases -/

theorem at_eq_toList_getElem? (cb : CircularBuffer T) (i : Nat) :
    cb.at' i = cb.toList[i]? := by
  by_cases hi : i < cb.size
  · have hemp : cb.empty = false := by
      rcases he : cb.empty with _ | _
      · rfl
      · have := cb.size_zero_of_empty he
        omega
    rw [at', toList]
    rw [List.getElem?_map, List.getElem?_range hi]
    simp [hemp, hi]
  · rw [at', toList]
    rw [List.getElem?_map, List.getElem?_eq_none (by rw [List.length_range]; omega)]
    simp [hi]

theorem pop_front_of_empty (cb : CircularBuffer T) (h : cb.empty = true) :
    cb.pop_front = cb := by
  simp [pop_front, h]

theorem pop_back_of_empty (cb : CircularBuffer T) (h : cb.empty = true) :
    cb.pop_back = cb := by
  simp [pop_back, h]

theorem front_of_empty (cb : CircularBuffer T) (h : cb.empty = true) : cb.front = none := by
  simp [front, h]

theorem back_of_empty (cb : CircularBuffer T) (h : cb.empty = true) : cb.back = none := by
  simp [back, h]

/-! ### Claim C1: the capacity-4 concrete scenario -/

/-- State after `push_back(1)` on a fresh capacity-4 buffer. -/
def c1s1 : CircularBuffer Nat := (create Nat 4).push_back 1

/-- State after the subsequent `pop_front()`. -/
def c1s2 : CircularBuffer Nat := c1s1.pop_front

/-- State after the subsequent `push_back(2)`. -/
def c1s3 : CircularBuffer Nat := c1s2.push_back 2

/-- State after the subsequent `push_front(3); push_back(4); push_back(5)`. -/
def c1s4 : CircularBuffer Nat := ((c1s3.push_front 3).push_back 4).push_back 5

/-- State after the final `push_front(6)`. -/
def c1s5 : CircularBuffer Nat := c1s4.push_front 6

/-- C1 (counterexample): running the claimed operation sequence on a capacity-4
buffer satisfies every intermediate assertion of the claim, yet the final
front-to-back contents are not `[6,3,4,5]`.  (Before the final push the buffer
holds `[3,2,4,5]`; `push_front` on a full buffer evicts the back element `5`,
giving `[6,3,2,4]`.) -/
theorem claim1_counterexample :
    c1s1.front = some 1 ∧ c1s1.back = some 1 ∧ c1s2.empty = true ∧
    c1s3.front = some 2 ∧ c1s3.back = some 2 ∧
    c1s5.full = true ∧ c1s5.toList ≠ [6, 3, 4, 5] := by
  decide

/-- C1 (amended): the operation sequence
`push_back(1); pop_front(); push_back(2); push_front(3); push_back(4);
push_back(5); push_front(6)` on a capacity-4 buffer satisfies all the claimed
intermediate assertions and leaves the buffer full with front-to-back logical
contents exactly `[6,3,2,4]`. -/
theorem claim1_scenario :
    c1s1.front = some 1 ∧ c1s1.back = some 1 ∧ c1s2.empty = true ∧
    c1s3.front = some 2 ∧ c1s3.back = some 2 ∧
    c1s5.full = true ∧ c1s5.size = 4 ∧ c1s5.toList = [6, 3, 2, 4] := by
  decide

/-! ### Claim C2: eviction on a full buffer -/

/-- C2: on a full buffer, `push_back v` drops exactly the front (oldest)
element and appends `v` at the back, `push_front v` drops exactly the back
(most recently pushed-to-back) element and prepends `v` at the front, and in
both cases the size stays equal to the capacity; the list equations force all
surviving elements to keep their relative order. -/
theorem claim2_full_push_eviction (cb : CircularBuffer T) (hv : cb.Invariant)
    (hfull : cb.size = cb.capacity) (v : T) :
    (cb.push_back v).toList = cb.toList.drop 1 ++ [v] ∧
    (cb.push_back v).size = cb.capacity ∧
    (cb.push_front v).toList = v :: cb.toList.dropLast ∧
    (cb.push_front v).size = cb.capacity := by
  have hf : cb._full = true := (cb.full_iff_size_cap hv).2 hfull
  exact ⟨cb.push_back_toList_of_full hv hf v, cb.push_back_size_of_full hv hf v,
    cb.push_front_toList_of_full hv hf v, cb.push_front_size_of_full hv hf v⟩

/-- C2 witness: the hypotheses hold for the full capacity-4 buffer `[9,8,7,6]`,
and pushing `5` on either end behaves as stated. -/
theorem claim2_witness :
    (createFrom 4 [9, 8, 7, 6] : CircularBuffer Nat).Invariant ∧
    (createFrom 4 [9, 8, 7, 6] : CircularBuffer Nat).size =
      (createFrom 4 [9, 8, 7, 6] : CircularBuffer Nat).capacity ∧
    (((createFrom 4 [9, 8, 7, 6] : CircularBuffer Nat).push_back 5).toList =
        (createFrom 4 [9, 8, 7, 6] : CircularBuffer Nat).toList.drop 1 ++ [5] ∧
      ((createFrom 4 [9, 8, 7, 6] : CircularBuffer Nat).push_back 5).size =
        (createFrom 4 [9, 8, 7, 6] : CircularBuffer Nat).capacity ∧
      ((createFrom 4 [9, 8, 7, 6] : CircularBuffer Nat).push_front 5).toList =
        5 :: (createFrom 4 [9, 8, 7, 6] : CircularBuffer Nat).toList.dropLast ∧
      ((createFrom 4 [9, 8, 7, 6] : CircularBuffer Nat).push_front 5).size =
        (createFrom 4 [9, 8, 7, 6] : CircularBuffer Nat).capacity) :=
  ⟨by decide, by decide, claim2_full_push_eviction _ (by decide) (by decide) 5⟩

/-! ### Claim C3: `read` copies the logical prefix -/

/-- C3: from any valid state, `read` hands back exactly
`min maxCount (size())` elements, namely the front-to-back logical prefix of
the contents (split across the physical wraparound into at most two runs by
construction of `read`), and returns that count. -/
theorem claim3_read (cb : CircularBuffer T) (hv : cb.Invariant) (num : Nat) :
    (cb.read num).1.1 = cb.toList.take num ∧
    (cb.read num).1.1.length = min num cb.size ∧
    (cb.read num).1.2 = min num cb.size := by
  obtain ⟨hdata, hcount⟩ := cb.read_spec hv num
  refine ⟨hdata, ?_, hcount⟩
  rw [hdata, cb.toList_take_min num, List.length_take, toList_length,
    Nat.min_eq_left (Nat.min_le_right _ _)]

/-- Capacity-4 buffer after `push_back 0,1,2,3; pop_front; push_back 4`:
the physical layout wraps. -/
def c3Buffer : CircularBuffer Nat :=
  ((((((create Nat 4).push_back 0).push_back 1).push_back 2).push_back 3).pop_front).push_back 4

/-- C3 witness: on the wrapped capacity-4 buffer holding `[1,2,3,4]`,
`read` with `maxCount = 4` yields `[1,2,3,4]` and count 4. -/
theorem claim3_witness :
    c3Buffer.Invariant ∧ (c3Buffer.read 4).1.1 = [1, 2, 3, 4] ∧ (c3Buffer.read 4).1.2 = 4 := by
  have h := claim3_read c3Buffer (by decide) 4
  refine ⟨by decide, ?_, ?_⟩
  · rw [h.1]; decide
  · rw [h.2.2]; decide

/-! ### Claim C4: truncation to the last `capacity` elements -/

/-- C4: populating from a source longer than the capacity keeps exactly the
last `capacity` source elements in their original relative order (the first
`length - capacity` elements are skipped), both through the range constructor
and through `assign` on any valid buffer of that capacity. -/
theorem claim4_truncation (n : Nat) (hn : 0 < n) (src : List T) (hlong : n < src.length) :
    (createFrom n src : CircularBuffer T).toList = src.drop (src.length - n) ∧
    (createFrom n src : CircularBuffer T).size = n ∧
    ∀ cb : CircularBuffer T, cb.Invariant → cb.capacity = n →
      (cb.assign src).toList = src.drop (src.length - n) ∧ (cb.assign src).size = n := by
  obtain ⟨h1, h2⟩ := createFrom_spec n hn src
  refine ⟨h1, by rw [h2]; omega, ?_⟩
  intro cb hv hcap
  have hc : cb._cap = n := hcap
  obtain ⟨g1, g2⟩ := cb.assign_spec hv src
  rw [hc] at g1 g2
  exact ⟨g1, by rw [g2]; omega⟩

/-- C4 witness: capacity 3, source `[1,2,3,4,5]` — the buffer keeps `[3,4,5]`. -/
theorem claim4_witness :
    0 < 3 ∧ 3 < 5 ∧ (createFrom 3 [1, 2, 3, 4, 5] : CircularBuffer Nat).toList = [3, 4, 5] ∧
    (createFrom 3 [1, 2, 3, 4, 5] : CircularBuffer Nat).size = 3 := by
  have h := claim4_truncation (T := Nat) 3 (by decide) [1, 2, 3, 4, 5] (by decide)
  refine ⟨by decide, by decide, ?_, h.2.1⟩
  rw [h.1]; decide

/-! ### Claim C5: capacity bounds and `empty`/`full` coherence -/

/-- C5: on every state reachable from a freshly constructed buffer through the
public mutators, `size() <= capacity()` holds, `empty()` is true exactly when
`size() == 0`, and `full()` is true exactly when `size() == capacity()`. -/
theorem claim5_capacity_invariants (cb : CircularBuffer T) (h : Reachable cb) :
    cb.size ≤ cb.capacity ∧ (cb.empty = true ↔ cb.size = 0) ∧
    (cb.full = true ↔ cb.size = cb.capacity) := by
  have hv := cb.reachable_invariant h
  exact ⟨cb.size_le_cap hv, cb.empty_iff_size_zero hv, cb.full_iff_size_cap hv⟩

/-- C5 witness: the invariants hold on the reachable state `push_back 7`
after construction with capacity 4. -/
theorem claim5_witness :
    Reachable ((create Nat 4).push_back 7) ∧
    (((create Nat 4).push_back 7).size ≤ ((create Nat 4).push_back 7).capacity ∧
      (((create Nat 4).push_back 7).empty = true ↔ ((create Nat 4).push_back 7).size = 0) ∧
      (((create Nat 4).push_back 7).full = true ↔
        ((create Nat 4).push_back 7).size = ((create Nat 4).push_back 7).capacity)) :=
  have hr : Reachable ((create Nat 4).push_back 7) :=
    Reachable.push_back _ 7 (Reachable.create 4 (by decide))
  ⟨hr, claim5_capacity_invariants _ hr⟩

/-! ### Claim C6: round-trip construction from a short range -/

/-- C6: constructing from a source of length at most the capacity reproduces
the source exactly, both as the logical contents and under front-to-back
iteration from `begin()` to `end()`. -/
theorem claim6_roundtrip (n : Nat) (hn : 0 < n) (src : List T) (hfit : src.length ≤ n) :
    (createFrom n src : CircularBuffer T).toList = src ∧
    (createFrom n src : CircularBuffer T).forwardIter = src := by
  obtain ⟨h1, _⟩ := createFrom_spec n hn src
  have hz : src.length - n = 0 := by omega
  rw [hz, List.drop_zero] at h1
  exact ⟨h1, by rw [forwardIter_eq_toList]; exact h1⟩

/-- C6 witness: capacity 10, source `[9,8,7,6,5]`. -/
theorem claim6_witness :
    0 < 10 ∧ (5 : Nat) ≤ 10 ∧
    (createFrom 10 [9, 8, 7, 6, 5] : CircularBuffer Nat).toList = [9, 8, 7, 6, 5] ∧
    (createFrom 10 [9, 8, 7, 6, 5] : CircularBuffer Nat).forwardIter = [9, 8, 7, 6, 5] :=
  ⟨by decide, by decide,
    (claim6_roundtrip 10 (by decide) [9, 8, 7, 6, 5] (by decide)).1,
    (claim6_roundtrip 10 (by decide) [9, 8, 7, 6, 5] (by decide)).2⟩

/-! ### Claim C7: `read` does not mutate the buffer -/

/-- C7: the receiver state returned by `read` is the input state, so reading
twice with the same arguments produces identical data and count, and every
subsequent query (`toList`, `size`, `front`, `back`, the head/tail/full
fields) answers as before the read. -/
theorem claim7_read_pure (cb : CircularBuffer T) (num : Nat) :
    (cb.read num).2 = cb ∧
    ((cb.read num).2).read num = cb.read num ∧
    ((cb.read num).2).toList = cb.toList ∧ ((cb.read num).2).size = cb.size ∧
    ((cb.read num).2).front = cb.front ∧ ((cb.read num).2).back = cb.back := by
  have h := cb.read_state num
  rw [h]
  exact ⟨rfl, rfl, rfl, rfl, rfl, rfl⟩

/-! ### Claim C8: checked access and pops on the edge cases -/

/-- C8: `at(i)` equals the checked lookup into the logical contents (so it is
`absent` when the buffer is empty or `i >= size()` and the logical `i`-th
element otherwise, and it never raises); on an empty buffer `front()`,
`back()` and `at(i)` are all absent and `pop_front()`/`pop_back()` leave the
state entirely unchanged. -/
theorem claim8_absent_and_noop (cb : CircularBuffer T) (i : Nat) :
    cb.at' i = cb.toList[i]? ∧
    (cb.empty = true →
      cb.front = none ∧ cb.back = none ∧ cb.at' i = none ∧
      cb.pop_front = cb ∧ cb.pop_back = cb) ∧
    (cb.size ≤ i → cb.at' i = none) := by
  refine ⟨cb.at_eq_toList_getElem? i, ?_, ?_⟩
  · intro h
    have hs := cb.size_zero_of_empty h
    refine ⟨cb.front_of_empty h, cb.back_of_empty h, ?_, cb.pop_front_of_empty h,
      cb.pop_back_of_empty h⟩
    rw [cb.at_eq_toList_getElem? i]
    exact List.getElem?_eq_none (by rw [toList_length]; omega)
  · intro h
    rw [cb.at_eq_toList_getElem? i]
    exact List.getElem?_eq_none (by rw [toList_length]; omega)

/-- C8 witness: a freshly constructed capacity-4 buffer is empty, and all the
absent/no-op conclusions hold on it at index 0. -/
theorem claim8_witness :
    (create Nat 4).empty = true ∧
    ((create Nat 4).front = none ∧ (create Nat 4).back = none ∧
      (create Nat 4).at' 0 = none ∧
      (create Nat 4).pop_front = create Nat 4 ∧ (create Nat 4).pop_back = create Nat 4) :=
  ⟨by decide, (claim8_absent_and_noop (create Nat 4) 0).2.1 (by decide)⟩

/-! ### Claim C9: iteration order -/

/-- C9: forward iteration from `begin()` to `end()` visits exactly `size()`
elements in logical front-to-back order, `end()`'s logical position exceeds
`begin()`'s by exactly `size()`, and reverse iteration visits the same
elements back-to-front; in particular the full capacity-4 buffer holding
`[9,8,7,6]` iterates forward as `9,8,7,6` and in reverse as `6,7,8,9`. -/
theorem claim9_iteration :
    (∀ (U : Type) [Inhabited U] (cb : CircularBuffer U),
      cb.forwardIter = cb.toList ∧ cb.forwardIter.length = cb.size ∧
      cb.endPos - cb.beginPos = cb.size ∧ cb.revIter = cb.toList.reverse) ∧
    (createFrom 4 [9, 8, 7, 6] : CircularBuffer Nat).full = true ∧
    (createFrom 4 [9, 8, 7, 6] : CircularBuffer Nat).forwardIter = [9, 8, 7, 6] ∧
    (createFrom 4 [9, 8, 7, 6] : CircularBuffer Nat).revIter = [6, 7, 8, 9] := by
  refine ⟨?_, by decide, by decide, by decide⟩
  intro U _ cb
  exact ⟨cb.forwardIter_eq_toList, cb.forwardIter_length, cb.endPos_sub_beginPos,
    cb.revIter_eq_reverse⟩

/-! ### Claim C10: a push is immediately visible at its end -/

/-- C10: from any valid state (empty or full included), `back()` returns the
value just passed to `push_back`, `front()` returns the value just passed to
`push_front`, and a buffer is never empty immediately after a push. -/
theorem claim10_push_visible (cb : CircularBuffer T) (hv : cb.Invariant) (v : T) :
    (cb.push_back v).back = some v ∧ (cb.push_front v).front = some v ∧
    (cb.push_back v).empty = false ∧ (cb.push_front v).empty = false :=
  ⟨cb.push_back_back hv v, cb.push_front_front hv v, cb.push_back_empty v,
    cb.push_front_empty v⟩

/-- C10 witness: the conclusions hold when pushing 5 onto the full capacity-3
buffer produced by `fill 9`. -/
theorem claim10_witness :
    ((create Nat 3).fill 9).Invariant ∧
    ((((create Nat 3).fill 9).push_back 5).back = some 5 ∧
      (((create Nat 3).fill 9).push_front 5).front = some 5 ∧
      (((create Nat 3).fill 9).push_back 5).empty = false ∧
      (((create Nat 3).fill 9).push_front 5).empty = false) :=
  ⟨by decide, claim10_push_visible _ (by decide) 5⟩

end CircularBuffer

end M5Container
